import Mathlib

/-!
Verification development for the content-automation repository.

The repository reconciles social-media post metrics against a spreadsheet
ledger.  The definitions below are shallow embeddings of the JavaScript
functions in `src/scripts/` and `src/unnamed/`:

* string helpers model the exact JS primitives used by the code
  (`String.prototype.includes`, `split(':').pop()`, `substring(0,50).trim()`,
  `split(/\s+/)`, `replace(/\s+/g,' ').trim()`, `toLowerCase`);
* `parseMetricNumber` embeds the metric-text normalizer of
  `collect-linkedin-stats-browser.js` (lines 275-287), with IEEE `NaN`
  modelled as `Option.none`;
* `normalizeText` / `findMatchingPost` embed the content matcher of the
  browser variant (lines 306-343);
* `buildPostStats` / `jsMapGet` / `voyagerMatchStats` embed the stats map and
  matcher of the Voyager-style variants (`voyager-client.js` collector part,
  `unnamed/part_000`, `part_001`, `part_002`);
* `getPostsNeedingStats` / `writeStatsRow` / `voyagerPass` embed the
  eligibility query and write-back of `sheets-helper` together with the
  Voyager collection loop, with spreadsheet timestamps abstracted by an
  integer valuation;
* `xLoopE` / `voyLoopE` embed the control flow of the per-record loops of
  `collect-stats.js` (per-record try/catch) and of the Voyager-style variants
  (no per-record try/catch: a write exception reaches the outer catch),
  with the fallible external calls abstracted by failure predicates.
-/

/-- `prefixEqL needle hay` : `needle` is a prefix of `hay` (char lists). -/
def prefixEqL : List Char → List Char → Bool
  | [], _ => true
  | _ :: _, [] => false
  | a :: as, b :: bs => a = b && prefixEqL as bs

/-- `inclL hay needle` models JS `hay.includes(needle)` on char lists. -/
def inclL : List Char → List Char → Bool
  | [], needle => needle.isEmpty
  | hay@(_ :: tl), needle => prefixEqL needle hay || inclL tl needle

/-- JS `s.includes(sub)` : substring containment. -/
def jsIncludes (s sub : String) : Bool :=
  inclL s.data sub.data

/-- JS `s.split(':').pop()` : the text after the last `:` (whole string when
no `:` occurs, empty when the string ends in `:`). -/
def lastSegment (s : String) : String :=
  String.mk (s.data.foldl (fun acc c => if c = ':' then [] else acc ++ [c]) [])

/-- Drop ASCII whitespace from both ends (JS `trim()`). -/
def trimL (l : List Char) : List Char :=
  ((l.dropWhile Char.isWhitespace).reverse.dropWhile Char.isWhitespace).reverse

/-- JS `s.trim()`. -/
def jsTrim (s : String) : String :=
  String.mk (trimL s.data)

/-- JS `s.substring(0, 50).trim()` — the content-snippet key used by the
Voyager-style variants. -/
def jsSub50trim (s : String) : String :=
  String.mk (trimL (s.data.take 50))

/-- Auxiliary for `jsSplitWs`: `inWs` records whether the previous character
belonged to a whitespace run, `cur` is the current token (reversed). -/
def jsSplitA : Bool → List Char → List Char → List String
  | _, cur, [] => [String.mk cur.reverse]
  | inWs, cur, c :: rest =>
    if c.isWhitespace then
      if inWs then jsSplitA true cur rest
      else String.mk cur.reverse :: jsSplitA true [] rest
    else jsSplitA false (c :: cur) rest

/-- JS `s.split(/\s+/)`: split on maximal whitespace runs.  Faithful to JS
semantics: `"".split` gives `[""]`, leading/trailing runs give empty
tokens. -/
def jsSplitWs (s : String) : List String :=
  jsSplitA false [] s.data

/-- Auxiliary for `collapseWs`: replace every whitespace run by one space. -/
def collapseWsA : Bool → List Char → List Char
  | _, [] => []
  | prevWs, c :: rest =>
    if c.isWhitespace then
      if prevWs then collapseWsA true rest
      else ' ' :: collapseWsA true rest
    else c :: collapseWsA false rest

/-- JS `s.replace(/\s+/g, ' ')`. -/
def collapseWs (l : List Char) : List Char :=
  collapseWsA false l

/-- JS `\w` without the `u` flag: `[A-Za-z0-9_]`. -/
def isWordChar (c : Char) : Bool :=
  c.isAlphanum || c = '_'

/-- `normalizeText` of `collect-linkedin-stats-browser.js` (lines 336-343):
lower-case, strip everything outside `[\w\s]`, collapse whitespace, trim.
The JS null-guard `if (!text) return ''` is the empty-string test. -/
def normalizeText (t : String) : String :=
  if t = "" then ""
  else
    String.mk (trimL (collapseWs
      ((t.data.map Char.toLower).filter
        (fun c => isWordChar c || c.isWhitespace))))

/-! ## Metric normalizer (`parseMetricNumber`, browser variant lines 275-287) -/

/-- Character class `[\d.]` of the metric regex. -/
def digDotP (c : Char) : Bool :=
  c.isDigit || c = '.'

/-- Value of a digit string read left to right (`'7'` contributes
`'7'.toNat - 48 = 7`). -/
def digitsVal (cs : List Char) : ℕ :=
  cs.foldl (fun a c => 10 * a + (c.toNat - 48)) 0

/-- JS `parseFloat` restricted to a run of digits and dots: leading digits,
optionally a dot and a further digit run; `NaN` (no digit before the second
non-digit position) is `none`. -/
def parseFloatRun (cs : List Char) : Option ℚ :=
  let intD := cs.takeWhile Char.isDigit
  let rest := cs.dropWhile Char.isDigit
  match rest with
  | '.' :: rest2 =>
    let fracD := rest2.takeWhile Char.isDigit
    if intD.isEmpty && fracD.isEmpty then none
    else some ((digitsVal intD : ℚ) + (digitsVal fracD : ℚ) / 10 ^ fracD.length)
  | _ => if intD.isEmpty then none else some (digitsVal intD)

/-- JS `Math.round` (half-up). -/
def jsRound (q : ℚ) : ℤ :=
  ⌊q + 1 / 2⌋

/-- `str.replace(/[,\s]/g, '').toLowerCase()` as a char list. -/
def cleanChars (s : String) : List Char :=
  (s.data.filter (fun c => ¬(c = ',' ∨ c.isWhitespace))).map Char.toLower

/-- `parseMetricNumber` of `collect-linkedin-stats-browser.js`:
absent input (`none`) and the empty string give `0`; otherwise commas and
whitespace are removed, the string is lower-cased, the first run of
digits/dots is parsed by `parseFloat`, an immediately following `k`/`m`
multiplies by 1000/1000000, and the result is `Math.round`ed.  A run that
`parseFloat` cannot parse (e.g. `"."`) produces `NaN`, modelled `none`. -/
def parseMetricNumber (s : Option String) : Option ℤ :=
  match s with
  | none => some 0
  | some str =>
    if str = "" then some 0
    else
      let cs := cleanChars str
      let afterJunk := cs.dropWhile (fun c => ¬ digDotP c)
      let run := afterJunk.takeWhile digDotP
      if run.isEmpty then some 0
      else
        match parseFloatRun run with
        | none => none
        | some q =>
          let suffix := afterJunk.drop run.length
          let mult : ℚ :=
            match suffix with
            | 'k' :: _ => 1000
            | 'm' :: _ => 1000000
            | _ => 1
          some (jsRound (q * mult))

/-- Spec-side digit rendering used to state the normalizer contract. -/
def specDigitChar : ℕ → Char
  | 0 => '0' | 1 => '1' | 2 => '2' | 3 => '3' | 4 => '4'
  | 5 => '5' | 6 => '6' | 7 => '7' | 8 => '8' | _ => '9'

/-- Decimal value of a digit list (spec side). -/
def decVal (ds : List ℕ) : ℕ :=
  ds.foldl (fun a d => 10 * a + d) 0

/-! ## Browser-variant matcher (`findMatchingPost`, lines 306-331) -/

/-- One scraped post of the browser variant (`scrapePostStats`). -/
structure ScrapedPost where
  urn : Option String
  deepUrns : List String
  content : String
  impressions : ℕ
  reactions : ℕ
  comments : ℕ
deriving DecidableEq, Repr

/-- First-20 normalized words of a side of the fuzzy comparison. -/
def tokensOf (s : String) : List String :=
  (jsSplitWs s).take 20

/-- `matchCount` of the fuzzy stage for a prepared (normalized) pair. -/
def fuzzyCount (ns nsc : String) : ℕ :=
  (tokensOf ns).countP (fun w => (tokensOf nsc).contains w)

/-- The per-post loop body of `findMatchingPost`: exact 50-char prefix test
first, then the 80% token-overlap test. -/
def findGo (ns : String) : List ScrapedPost → Option ScrapedPost
  | [] => none
  | p :: rest =>
    let nsc := normalizeText p.content
    if ns.data.take 50 = nsc.data.take 50 then some p
    else
      let sheetWords := tokensOf ns
      if sheetWords.length = 0 then findGo ns rest
      else if (4 : ℚ) / 5 ≤ (fuzzyCount ns nsc : ℚ) / sheetWords.length then some p
      else findGo ns rest

/-- `findMatchingPost` of the browser variant: content-similarity matcher. -/
def findMatchingPost (sheetContent : String) (posts : List ScrapedPost) :
    Option ScrapedPost :=
  if sheetContent = "" then none
  else findGo (normalizeText sheetContent) posts

/-- Identifier stage of the browser variant (lines 135-139): the first
scraped post whose `urn` or one of whose `deepUrns` CONTAINS the sheet id as
a substring. -/
def idMatchBrowser (sheetId : String) (posts : List ScrapedPost) :
    Option ScrapedPost :=
  posts.find? (fun p =>
    (match p.urn with
     | some u => jsIncludes u sheetId
     | none => false)
    || p.deepUrns.any (fun u => jsIncludes u sheetId))

/-- Whole matcher of the browser variant for one ledger record: identifier
stage (when `platformPostId` is non-empty), then content stage (when the
sheet content could be read). -/
def browserMatch (platformPostId : String) (content : Option String)
    (posts : List ScrapedPost) : Option ScrapedPost :=
  let m1 :=
    if platformPostId ≠ "" then
      idMatchBrowser (lastSegment platformPostId) posts
    else none
  match m1 with
  | some m => some m
  | none =>
    match content with
    | some c => findMatchingPost c posts
    | none => none

/-! ## Voyager-style stats map and matcher -/

/-- `totalSocialActivityCounts` of a feed item's `socialDetail`. -/
structure SocialCounts where
  numLikes : Option ℕ
  numComments : Option ℕ
deriving DecidableEq, Repr

/-- One element of the Voyager feed. -/
structure FeedItem where
  urn : Option String
  socialDetail : Option SocialCounts
  commentary : Option String
deriving DecidableEq, Repr

/-- The stats value stored in the `postStats` map. -/
structure VStats where
  likes : ℕ
  comments : ℕ
  impressions : ℕ
deriving DecidableEq, Repr

/-- `{ likes: …numLikes || 0, comments: …numComments || 0, impressions: 0 }`. -/
def statsOf (d : SocialCounts) : VStats :=
  ⟨d.numLikes.getD 0, d.numComments.getD 0, 0⟩

/-- The key/value pairs one feed item inserts into `postStats`: the full URN,
the numeric URN suffix, and the trimmed first-50-character content snippet
(all mapped to the same stats value); nothing when `socialDetail` is
absent. -/
def itemPairs (it : FeedItem) : List (String × VStats) :=
  match it.socialDetail with
  | none => []
  | some d =>
    let st := statsOf d
    (match it.urn with
     | some u => [(u, st), (lastSegment u, st)]
     | none => []) ++
    (match it.commentary with
     | some t => [(jsSub50trim t, st)]
     | none => [])

/-- The `postStats` map as an insertion-ordered association list. -/
def buildPostStats (items : List FeedItem) : List (String × VStats) :=
  (items.map itemPairs).flatten

/-- JS `Map.get`: the value of the LAST insertion under the key. -/
def jsMapGet (m : List (String × VStats)) (k : String) : Option VStats :=
  (m.reverse.find? (fun p => p.1 = k)).map (fun p => p.2)

/-- Per-record matcher of the Voyager-style variants: numeric-suffix lookup,
full-URN lookup, then exact lookup of the raw trimmed 50-char snippet of the
sheet content (the content stage runs only when the content is non-empty). -/
def voyagerMatchStats (sm : List (String × VStats)) (platformPostId content : String) :
    Option VStats :=
  let m1 : Option VStats :=
    if platformPostId ≠ "" then
      match jsMapGet sm (lastSegment platformPostId) with
      | some st => some st
      | none => jsMapGet sm platformPostId
    else none
  match m1 with
  | some st => some st
  | none =>
    if content ≠ "" then jsMapGet sm (jsSub50trim content)
    else none

/-! ## Ledger rows, eligibility query, winner classifiers, write-back -/

/-- One data row of a `… Posted` tab, with the columns the core touches
(fixed column contract of `sheets-helper`; missing cells are `""`). -/
structure LRow where
  content : String
  postedAt : String
  platformPostId : String
  impressions : String
  engagement : String
  engagementRate : String
  winner : String
deriving DecidableEq, Repr

/-- `(now - postedDate) / (1000*60*60)` of `getPostsNeedingStats`; timestamps
in milliseconds, date parsing abstracted by a valuation `dateOf`. -/
def hoursSince (now posted : ℤ) : ℚ :=
  ((now - posted : ℤ) : ℚ) / (1000 * 60 * 60)

/-- The row filter of `getPostsNeedingStats` (`voyager-client.js` sheets
helper, lines 427-443): `postedAt` set, `impressions` empty, AND at least one
hour since posting. -/
def eligB (now : ℤ) (dateOf : String → ℤ) (r : LRow) : Bool :=
  r.postedAt ≠ "" && r.impressions = "" &&
    decide ((1 : ℚ) ≤ hoursSince now (dateOf r.postedAt))

/-- Recursion of `getPostsNeedingStats` over the data rows; `k` counts data
rows already passed, so the sheet `rowIndex` of the head is `k + 2`
(row 1 is the header). -/
def needsAux (now : ℤ) (dateOf : String → ℤ) : ℕ → List LRow → List (ℕ × String)
  | _, [] => []
  | k, r :: rest =>
    if eligB now dateOf r then
      (k + 2, r.platformPostId) :: needsAux now dateOf (k + 1) rest
    else needsAux now dateOf (k + 1) rest

/-- `getPostsNeedingStats`: the `(rowIndex, platformPostId)` pairs of the
rows that pass `eligB`. -/
def getPostsNeedingStats (now : ℤ) (dateOf : String → ℤ) (rows : List LRow) :
    List (ℕ × String) :=
  needsAux now dateOf 0 rows

/-- Winner rule of `collectXStats` (`collect-stats.js` line 56):
`engagement >= avg * 2`, no positivity guard, no fallback threshold. -/
def isWinnerX (eng : ℕ) (avg : ℚ) : Bool :=
  decide (avg * 2 ≤ (eng : ℚ))

/-- Winner rule of `collectLinkedInStats` (`collect-stats.js` line 123):
`engagement > 0 && engagement >= avg * 2`, no fallback threshold. -/
def isWinnerLinkedInApi (eng : ℕ) (avg : ℚ) : Bool :=
  decide (0 < eng) && decide (avg * 2 ≤ (eng : ℚ))

/-- Winner rule of the browser variant (lines 120 and 158):
`threshold = avg > 0 ? avg * 2 : 10; engagement >= threshold`. -/
def isWinnerBrowser (eng : ℕ) (avg : ℚ) : Bool :=
  let thr : ℚ := if 0 < avg then avg * 2 else 10
  decide (thr ≤ (eng : ℚ))

/-- Winner rule of the Voyager-style variants (`voyager-client.js` collector
line 249, `part_000` line 152, `part_001` line 118, `part_002` line 179):
`engagement > 0 && engagement >= avg * 2`, no fallback threshold. -/
def isWinnerVoyager (eng : ℕ) (avg : ℚ) : Bool :=
  decide (0 < eng) && decide (avg * 2 ≤ (eng : ℚ))

/-- Modelled from the spec: the `classify(engagement, baseline)` contract of
§4.4 — winner iff `engagement > 0` and `engagement >= baseline * 2`, with the
fallback absolute threshold 10 in place of `baseline * 2` when
`baseline == 0`.  Used only to compare the code's classifiers against the
claimed rule. -/
def classifySpec (eng : ℕ) (baseline : ℚ) : Bool :=
  decide (0 < eng) &&
    (if baseline = 0 then decide ((10 : ℚ) ≤ (eng : ℚ))
     else decide (baseline * 2 ≤ (eng : ℚ)))

/-- Decimal rendering with two fractional digits (JS `toFixed(2)` idealized
over exact rationals; only used for the engagement-rate cell, whose exact
text no claim depends on). -/
def toFixed2 (q : ℚ) : String :=
  let m := (jsRound (q * 100)).toNat
  Nat.repr (m / 100) ++ "." ++ (if m % 100 < 10 then "0" else "") ++ Nat.repr (m % 100)

/-- The engagement-rate cell of `writeStats`:
`impressions > 0 ? ((engagement/impressions)*100).toFixed(2)+'%' : '0%'`. -/
def ratePercent (eng imp : ℕ) : String :=
  if 0 < imp then toFixed2 ((eng : ℚ) / (imp : ℚ) * 100) ++ "%" else "0%"

/-- Effect of `writeStats` on a row: the numeric cells are stored and read
back as their decimal text, the winner cell as `'🏆'` or `''`. -/
def writeStatsRow (r : LRow) (st : VStats) (avg : ℚ) : LRow :=
  let eng := st.likes + st.comments
  { r with
    impressions := Nat.repr st.impressions
    engagement := Nat.repr eng
    engagementRate := ratePercent eng st.impressions
    winner := if isWinnerVoyager eng avg then "🏆" else "" }

/-- In-place update of one list element (sheet row update). -/
def listModify (f : α → α) : ℕ → List α → List α
  | _, [] => []
  | 0, a :: t => f a :: t
  | n + 1, a :: t => a :: listModify f n t

/-- One iteration of the Voyager collection loop for a pending pair
`(rowIndex, platformPostId)`: the content is read from the CURRENT sheet
(column B of row `rowIndex`), the matcher runs, and on a match the stats are
written back; the accumulated second component lists the rowIndexes written,
in order. -/
def passStep (sm : List (String × VStats)) (avg : ℚ)
    (acc : List LRow × List ℕ) (pr : ℕ × String) : List LRow × List ℕ :=
  let idx := pr.1 - 2
  let content :=
    match acc.1[idx]? with
    | some r => r.content
    | none => ""
  match voyagerMatchStats sm pr.2 content with
  | none => acc
  | some st =>
    (listModify (fun r => writeStatsRow r st avg) idx acc.1, acc.2 ++ [pr.1])

/-- One Voyager reconciliation pass over the ledger rows: pending records are
computed once up front, then processed in order. -/
def voyagerPass (now : ℤ) (dateOf : String → ℤ) (sm : List (String × VStats))
    (avg : ℚ) (rows : List LRow) : List LRow × List ℕ :=
  (getPostsNeedingStats now dateOf rows).foldl (passStep sm avg) (rows, [])

/-! ## Control-flow models of the per-record loops -/

/-- A pending record as seen by the Voyager-style loops. -/
structure PendRec where
  rowIndex : ℕ
  platformPostId : String
  content : String
deriving DecidableEq, Repr

/-- Control flow of the Voyager-style record loop (`part_000` lines 131-169,
`part_001` lines 97-135, `part_002` lines 158-196, `voyager-client.js`
collector lines 218-272).  Only the winner-copy step sits in a try/catch; a
`writeStats` exception propagates to the outer catch, which exits the pass,
so the remaining records are never attempted.  Result:
`(attempted rowIndexes, written rowIndexes, winner-copied rowIndexes,
aborted)`. -/
def voyLoopE (sm : List (String × VStats)) (avg : ℚ)
    (writeFail copyFail : ℕ → Bool) :
    List PendRec → List ℕ × List ℕ × List ℕ × Bool
  | [] => ([], [], [], false)
  | p :: rest =>
    match voyagerMatchStats sm p.platformPostId p.content with
    | none =>
      let r := voyLoopE sm avg writeFail copyFail rest
      (p.rowIndex :: r.1, r.2.1, r.2.2.1, r.2.2.2)
    | some st =>
      if writeFail p.rowIndex then ([p.rowIndex], [], [], true)
      else
        let eng := st.likes + st.comments
        let win := isWinnerVoyager eng avg
        let r := voyLoopE sm avg writeFail copyFail rest
        (p.rowIndex :: r.1, p.rowIndex :: r.2.1,
          if win && !copyFail p.rowIndex then p.rowIndex :: r.2.2.1 else r.2.2.1,
          r.2.2.2)

/-- Control flow of the `collectXStats` record loop (`collect-stats.js`
lines 43-80).  The whole record body sits in a per-record try/catch: a fetch
failure (`fetchEng i = none`) or a write failure is caught and the loop
continues; the winner-copy has its own inner try/catch.  Result:
`(attempted rowIndexes, written rowIndexes, winner-copied rowIndexes)`. -/
def xLoopE (avg : ℚ) (fetchEng : ℕ → Option ℕ) (writeFail copyFail : ℕ → Bool) :
    List ℕ → List ℕ × List ℕ × List ℕ
  | [] => ([], [], [])
  | i :: rest =>
    let r := xLoopE avg fetchEng writeFail copyFail rest
    match fetchEng i with
    | none => (i :: r.1, r.2.1, r.2.2)
    | some eng =>
      if writeFail i then (i :: r.1, r.2.1, r.2.2)
      else
        (i :: r.1, i :: r.2.1,
          if isWinnerX eng avg && !copyFail i then i :: r.2.2 else r.2.2)

/-- Invariant between the original rows and the rows during/after a pass:
same length, the matcher-relevant fields (`content`, `postedAt`,
`platformPostId`) are untouched, and every row is either unchanged or has a
non-empty `impressions` cell. -/
def Pres (rows rs : List LRow) : Prop :=
  rs.length = rows.length ∧
  ∀ (j : ℕ) (r r' : LRow), rows[j]? = some r → rs[j]? = some r' →
    r'.content = r.content ∧ r'.postedAt = r.postedAt ∧
    r'.platformPostId = r.platformPostId ∧
    (r' = r ∨ r'.impressions ≠ "")

/-! # Helper lemmas -/

theorem prefixEqL_self (l : List Char) : prefixEqL l l = true := by
  induction l with
  | nil => rfl
  | cons a t ih => simp [prefixEqL, ih]

theorem inclL_suffix (xs ys : List Char) : inclL (xs ++ ys) ys = true := by
  induction xs with
  | nil =>
    cases ys with
    | nil => rfl
    | cons a t => simp [inclL, prefixEqL_self]
  | cons x xt ih => simp [inclL, ih]

theorem jsRound_natCast (n : ℕ) : jsRound (n : ℚ) = n := by
  unfold jsRound
  rw [Int.floor_eq_iff]
  constructor
  · push_cast; linarith
  · push_cast; linarith

theorem listModify_getElem? (f : α → α) :
    ∀ (l : List α) (n m : ℕ),
      (listModify f n l)[m]? = if m = n then (l[m]?).map f else l[m]? := by
  intro l
  induction l with
  | nil => intro n m; cases n <;> simp [listModify]
  | cons a t ih =>
    intro n m
    cases n with
    | zero =>
      cases m with
      | zero => simp [listModify]
      | succ m' => simp [listModify]
    | succ n' =>
      cases m with
      | zero => simp [listModify]
      | succ m' =>
        have h := ih n' m'
        simp only [listModify, List.getElem?_cons_succ]
        rw [h]
        by_cases hmn : m' = n'
        · simp [hmn]
        · have : ¬(m' + 1 = n' + 1) := by omega
          simp [hmn, this]

theorem listModify_length (f : α → α) :
    ∀ (l : List α) (n : ℕ), (listModify f n l).length = l.length := by
  intro l
  induction l with
  | nil => intro n; cases n <;> simp [listModify]
  | cons a t ih => intro n; cases n <;> simp [listModify, ih]

/-! # C1 : winner classification rule -/

/-- C1, counterexample: the claim states that `classify(0,0) = false` and
that the rule is applied uniformly by every collection variant, but the
X-stats variant (`collect-stats.js` line 56) classifies engagement 0 at
baseline 0 as a winner (`0 >= 0 * 2`), having neither the positivity guard
nor the fallback threshold. -/
theorem c1_counterexample :
    isWinnerX 0 0 = true ∧ classifySpec 0 0 = false := by
  constructor
  · norm_num [isWinnerX]
  · norm_num [classifySpec]

/-- C1, amended: for every engagement and non-negative baseline, the
browser-scraper variant implements exactly the claimed rule (winner iff
`engagement > 0` and `engagement >= baseline * 2`, with fallback threshold 10
when the baseline is 0); the Voyager-style and official-API LinkedIn
variants instead use `engagement > 0 && engagement >= baseline * 2` with no
fallback threshold, and the X variant uses `engagement >= baseline * 2`
with no positivity guard. -/
theorem c1_winner_rule_amended (eng : ℕ) (avg : ℚ) (h : 0 ≤ avg) :
    isWinnerBrowser eng avg = classifySpec eng avg ∧
    isWinnerVoyager eng avg = (decide (0 < eng) && decide (avg * 2 ≤ (eng : ℚ))) ∧
    isWinnerLinkedInApi eng avg = isWinnerVoyager eng avg ∧
    isWinnerX eng avg = decide (avg * 2 ≤ (eng : ℚ)) := by
  refine ⟨?_, rfl, rfl, rfl⟩
  rcases eq_or_lt_of_le h with h0 | hpos
  · subst h0
    simp only [isWinnerBrowser, classifySpec, lt_irrefl, if_false, if_true]
    by_cases hq : (10 : ℚ) ≤ (eng : ℚ)
    · have h10 : (10 : ℕ) ≤ eng := by exact_mod_cast hq
      have : 0 < eng := by omega
      simp [hq, this]
    · simp [hq]
  · have hne : avg ≠ 0 := ne_of_gt hpos
    simp only [isWinnerBrowser, classifySpec, hpos, if_true, hne, if_false]
    by_cases hq : avg * 2 ≤ (eng : ℚ)
    · have hpos2 : (0 : ℚ) < (eng : ℚ) := lt_of_lt_of_le (by linarith) hq
      have : 0 < eng := by exact_mod_cast hpos2
      simp [hq, this]
    · simp [hq]

/-- C1, witness for the amended rule at engagement 20, baseline 10. -/
theorem c1_winner_rule_witness :
    isWinnerBrowser 20 10 = classifySpec 20 10 ∧
    isWinnerVoyager 20 10 = (decide (0 < 20) && decide ((10 : ℚ) * 2 ≤ ((20 : ℕ) : ℚ))) ∧
    isWinnerLinkedInApi 20 10 = isWinnerVoyager 20 10 ∧
    isWinnerX 20 10 = decide ((10 : ℚ) * 2 ≤ ((20 : ℕ) : ℚ)) :=
  c1_winner_rule_amended 20 10 (by norm_num)

/-! # C2 : eligibility of the pending-records query -/

/-- C2, counterexample: a row whose `Posted At` is set and whose
`Impressions` cell is empty, but which was posted less than one hour before
`now` (here: at `now` itself), is NOT returned by `getPostsNeedingStats` —
the claim that no condition besides the two fields affects eligibility is
false, because the query also requires `hoursSincePost >= 1`. -/
theorem c2_counterexample :
    (LRow.mk "c" "x" "pid" "" "" "" "").postedAt ≠ "" ∧
    (LRow.mk "c" "x" "pid" "" "" "" "").impressions = "" ∧
    (2, "pid") ∉ getPostsNeedingStats 0 (fun _ => 0) [LRow.mk "c" "x" "pid" "" "" "" ""] := by
  refine ⟨by decide, rfl, ?_⟩
  have helig : eligB 0 (fun _ => 0) (LRow.mk "c" "x" "pid" "" "" "" "") = false := by
    norm_num [eligB, hoursSince]
  simp [getPostsNeedingStats, needsAux, helig]

/-- Membership characterization of the `needsAux` recursion underlying
`getPostsNeedingStats`, with the starting row offset `k` generalized. -/
theorem mem_needsAux (now : ℤ) (dateOf : String → ℤ) :
    ∀ (rows : List LRow) (k i : ℕ) (pid : String),
      ((i, pid) ∈ needsAux now dateOf k rows) ↔
      ∃ (j : ℕ) (r : LRow), i = k + j + 2 ∧ rows[j]? = some r ∧
        pid = r.platformPostId ∧ eligB now dateOf r = true := by
  intro rows
  induction rows with
  | nil =>
    intro k i pid
    simp [needsAux]
  | cons r rest ih =>
    intro k i pid
    cases helig : eligB now dateOf r with
    | true =>
      simp only [needsAux, helig, if_true, List.mem_cons]
      constructor
      · rintro (heq | hmem)
        · injection heq with hi hp
          exact ⟨0, r, by omega, by simp, hp, helig⟩
        · obtain ⟨j, r', h1, h2, h3, h4⟩ := (ih (k + 1) i pid).mp hmem
          exact ⟨j + 1, r', by omega, by simpa using h2, h3, h4⟩
      · rintro ⟨j, r', h1, h2, h3, h4⟩
        cases j with
        | zero =>
          left
          simp only [List.getElem?_cons_zero, Option.some.injEq] at h2
          subst h2
          have : i = k + 2 := by omega
          subst this
          rw [h3]
        | succ j' =>
          right
          exact (ih (k + 1) i pid).mpr ⟨j', r', by omega, by simpa using h2, h3, h4⟩
    | false =>
      have hne : needsAux now dateOf k (r :: rest) = needsAux now dateOf (k + 1) rest := by
        simp [needsAux, helig]
      rw [hne, ih (k + 1) i pid]
      constructor
      · rintro ⟨j, r', h1, h2, h3, h4⟩
        exact ⟨j + 1, r', by omega, by simpa using h2, h3, h4⟩
      · rintro ⟨j, r', h1, h2, h3, h4⟩
        cases j with
        | zero =>
          simp only [List.getElem?_cons_zero, Option.some.injEq] at h2
          subst h2
          rw [helig] at h4
          cases h4
        | succ j' =>
          exact ⟨j', r', by omega, by simpa using h2, h3, h4⟩

/-- C2, amended: a `(rowIndex, platformPostId)` pair is returned by
`getPostsNeedingStats` iff the corresponding data row has `Posted At` set,
`Impressions` empty, AND at least one hour has elapsed since the posting
timestamp (the extra condition the claim omits). -/
theorem c2_amended_eligibility (now : ℤ) (dateOf : String → ℤ) (rows : List LRow)
    (i : ℕ) (pid : String) :
    ((i, pid) ∈ getPostsNeedingStats now dateOf rows) ↔
    ∃ (j : ℕ) (r : LRow), i = j + 2 ∧ rows[j]? = some r ∧ pid = r.platformPostId ∧
      (r.postedAt ≠ "" ∧ r.impressions = "" ∧ (1 : ℚ) ≤ hoursSince now (dateOf r.postedAt)) := by
  rw [getPostsNeedingStats, mem_needsAux]
  constructor
  · rintro ⟨j, r, h1, h2, h3, h4⟩
    refine ⟨j, r, by omega, h2, h3, ?_⟩
    simpa [eligB, Bool.and_eq_true, decide_eq_true_eq, and_assoc] using h4
  · rintro ⟨j, r, h1, h2, h3, h4, h5, h6⟩
    refine ⟨j, r, by omega, h2, h3, ?_⟩
    simp [eligB, Bool.and_eq_true, decide_eq_true_eq, h4, h5, h6]

/-! # C4 : identifier matching -/

/-- C4, counterexample: with two scraped posts whose URNs are
`urn:li:share:1123` and `urn:li:share:123`, a ledger record with
`platformPostId = "urn:li:share:123"` has a numeric suffix (`123`) EQUAL to
the second post's suffix, yet the browser matcher returns the FIRST post,
because the identifier stage tests substring containment
(`"urn:li:share:1123".includes("123")`) rather than suffix equality — so the
claim "returns that metric" fails. -/
theorem c4_counterexample :
    browserMatch "urn:li:share:123" none
        [ScrapedPost.mk (some "urn:li:share:1123") [] "" 0 0 0,
         ScrapedPost.mk (some "urn:li:share:123") [] "" 0 0 0] =
      some (ScrapedPost.mk (some "urn:li:share:1123") [] "" 0 0 0) ∧
    lastSegment "urn:li:share:123" = "123" ∧
    ScrapedPost.mk (some "urn:li:share:1123") [] "" 0 0 0 ≠
      ScrapedPost.mk (some "urn:li:share:123") [] "" 0 0 0 := by
  refine ⟨by decide, by decide, by decide⟩

/-- C4, amended: (1) in the browser variant, whenever the identifier stage
(first scraped post whose `urn`/`deepUrns` CONTAINS the ledger id's last
segment as a substring) succeeds, that post is returned and the content
stage is never consulted; (2) in particular a first post whose URN ends in
`":" ++` the ledger suffix is returned, whatever its other fields and
whatever the content comparison would say; (3) in the Voyager-style
variants the identifier stage is an exact map lookup of the numeric suffix
and, when it succeeds, its stats are returned regardless of the content. -/
theorem c4_amended :
    (∀ (pid : String) (content : Option String) (posts : List ScrapedPost)
       (m : ScrapedPost),
       pid ≠ "" → idMatchBrowser (lastSegment pid) posts = some m →
       browserMatch pid content posts = some m) ∧
    (∀ (pre pid : String) (content : Option String) (rest : List ScrapedPost)
       (du : List String) (cnt : String) (imp rea com : ℕ),
       pid ≠ "" →
       browserMatch pid content
         (ScrapedPost.mk (some (pre ++ ":" ++ lastSegment pid)) du cnt imp rea com :: rest) =
         some (ScrapedPost.mk (some (pre ++ ":" ++ lastSegment pid)) du cnt imp rea com)) ∧
    (∀ (sm : List (String × VStats)) (pid content : String) (st : VStats),
       pid ≠ "" → jsMapGet sm (lastSegment pid) = some st →
       voyagerMatchStats sm pid content = some st) := by
  have part1 : ∀ (pid : String) (content : Option String) (posts : List ScrapedPost)
      (m : ScrapedPost),
      pid ≠ "" → idMatchBrowser (lastSegment pid) posts = some m →
      browserMatch pid content posts = some m := by
    intro pid content posts m hpid hmatch
    simp [browserMatch, hpid, hmatch]
  refine ⟨part1, ?_, ?_⟩
  · intro pre pid content rest du cnt imp rea com hpid
    apply part1 _ _ _ _ hpid
    have hj : jsIncludes (pre ++ ":" ++ lastSegment pid) (lastSegment pid) = true := by
      unfold jsIncludes
      rw [String.data_append]
      exact inclL_suffix _ _
    unfold idMatchBrowser
    rw [List.find?_cons]
    simp [hj]
  · intro sm pid content st hpid hget
    simp [voyagerMatchStats, hpid, hget]

/-- C4, witness: a concrete suffix-equal first post is matched through the
identifier stage, and a concrete Voyager map lookup returns its stats. -/
theorem c4_witness :
    browserMatch "urn:li:share:999" none
        [ScrapedPost.mk (some ("urn:li:activity" ++ ":" ++ lastSegment "urn:li:share:999"))
          [] "x" 5 8 4] =
      some (ScrapedPost.mk (some ("urn:li:activity" ++ ":" ++ lastSegment "urn:li:share:999"))
          [] "x" 5 8 4) ∧
    voyagerMatchStats [("999", VStats.mk 3 2 0)] "urn:li:share:999" "" =
      some (VStats.mk 3 2 0) :=
  ⟨c4_amended.2.1 "urn:li:activity" "urn:li:share:999" none [] [] "x" 5 8 4 (by decide),
   c4_amended.2.2 [("999", VStats.mk 3 2 0)] "urn:li:share:999" "" (VStats.mk 3 2 0)
     (by decide) (by decide)⟩

/-! # C5 : exact-prefix content matching -/

/-- The `findMatchingPost` loop returns a match whenever the list contains a
post whose normalized 50-character prefix equals that of the (normalized)
sheet content. -/
theorem findGo_isSome_of_prefix :
    ∀ (ns : String) (posts : List ScrapedPost) (p : ScrapedPost),
      p ∈ posts → ns.data.take 50 = (normalizeText p.content).data.take 50 →
      (findGo ns posts).isSome = true := by
  intro ns posts
  induction posts with
  | nil => intro p hp; simp at hp
  | cons q rest ih =>
    intro p hp hpre
    by_cases h1 : ns.data.take 50 = (normalizeText q.content).data.take 50
    · simp [findGo, h1]
    · have hp' : p ∈ rest := by
        rcases List.mem_cons.mp hp with rfl | h
        · exact absurd hpre h1
        · exact h
      have hrec := ih p hp' hpre
      by_cases h2 : (tokensOf ns).length = 0
      · simpa [findGo, h1, h2] using hrec
      · by_cases h3 : (4 : ℚ) / 5 ≤
            (fuzzyCount ns (normalizeText q.content) : ℚ) / (tokensOf ns).length
        · simp [findGo, h1, h2, h3]
        · simpa [findGo, h1, h2, h3] using hrec

/-- C5, amended: for every NON-EMPTY ledger content and every scraped post
whose first 50 normalized characters agree with the content's, the content
matcher succeeds (the claim as frozen also covers the empty ledger content,
where the matcher instead returns no match — see the counterexample). -/
theorem c5_amended (c : String) (posts : List ScrapedPost) (p : ScrapedPost)
    (hc : c ≠ "") (hp : p ∈ posts)
    (hpre : (normalizeText c).data.take 50 = (normalizeText p.content).data.take 50) :
    (findMatchingPost c posts).isSome = true := by
  unfold findMatchingPost
  rw [if_neg hc]
  exact findGo_isSome_of_prefix (normalizeText c) posts p hp hpre

/-- C5, counterexample: the empty ledger content and a metric with empty
content snippet have identical normalized 50-character prefixes (both
empty), yet `findMatchingPost` returns no match, because of the
`if (!sheetContent) return null` guard. -/
theorem c5_counterexample :
    (normalizeText "").data.take 50 =
      (normalizeText (ScrapedPost.mk none [] "" 0 0 0).content).data.take 50 ∧
    findMatchingPost "" [ScrapedPost.mk none [] "" 0 0 0] = none :=
  ⟨rfl, rfl⟩

/-- C5, witness: two 20-word contents sharing exactly their first 50
normalized characters match via the exact-prefix test although only 10 of
the 20 ledger tokens (50% < 80%) appear in the metric's token list. -/
theorem c5_witness :
    (findMatchingPost
        "one two three four five six seven eight nine ten alpha beta gamma delta epsilon zeta eta theta iota kappa"
        [ScrapedPost.mk none []
          "one two three four five six seven eight nine ten apple berry cherry dates elder figs grape honey kiwi lemon"
          0 0 0]).isSome = true ∧
    ¬(4 * (tokensOf (normalizeText
        "one two three four five six seven eight nine ten alpha beta gamma delta epsilon zeta eta theta iota kappa")).length ≤
      5 * fuzzyCount (normalizeText
        "one two three four five six seven eight nine ten alpha beta gamma delta epsilon zeta eta theta iota kappa")
        (normalizeText
        "one two three four five six seven eight nine ten apple berry cherry dates elder figs grape honey kiwi lemon")) :=
  ⟨c5_amended _ _ _ (by decide) (List.mem_singleton.mpr rfl) (by decide), by decide⟩

/-! # C6 : fuzzy token matching -/

theorem jsSplitA_ne_nil : ∀ (l : List Char) (b : Bool) (cur : List Char),
    jsSplitA b cur l ≠ [] := by
  intro l
  induction l with
  | nil => intro b cur; simp [jsSplitA]
  | cons c rest ih =>
    intro b cur
    by_cases hw : c.isWhitespace = true
    · cases b
      · simp [jsSplitA, hw]
      · simpa [jsSplitA, hw] using ih true cur
    · simpa [jsSplitA, hw] using ih false (c :: cur)

theorem tokensOf_length_pos (s : String) : 0 < (tokensOf s).length := by
  unfold tokensOf
  have h : jsSplitWs s ≠ [] := jsSplitA_ne_nil s.data false []
  have hlen : 0 < (jsSplitWs s).length := List.length_pos.mpr h
  simp only [List.length_take]
  omega

/-- C6, amended (browser variant only): for a non-empty ledger content and a
scraped post for which the exact-prefix test fails, the matcher succeeds on
the singleton candidate list iff at least 80% of the ledger's first-20
normalized tokens appear among the post's first-20 normalized tokens
(`matchCount / length >= 0.8`, i.e. `4 * length <= 5 * matchCount`).  The
Voyager-style variants have no fuzzy stage at all — see the
counterexample. -/
theorem c6_amended (c : String) (p : ScrapedPost)
    (hc : c ≠ "")
    (hpre : (normalizeText c).data.take 50 ≠ (normalizeText p.content).data.take 50) :
    findMatchingPost c [p] = some p ↔
      4 * (tokensOf (normalizeText c)).length ≤
        5 * fuzzyCount (normalizeText c) (normalizeText p.content) := by
  unfold findMatchingPost
  rw [if_neg hc]
  have hlen := tokensOf_length_pos (normalizeText c)
  have hlen0 : ¬((tokensOf (normalizeText c)).length = 0) := by omega
  by_cases h3 : (4 : ℚ) / 5 ≤
      (fuzzyCount (normalizeText c) (normalizeText p.content) : ℚ) /
        ((tokensOf (normalizeText c)).length : ℚ)
  · have hq := (div_le_div_iff₀ (by norm_num)
      (by exact_mod_cast hlen : (0 : ℚ) < ((tokensOf (normalizeText c)).length : ℚ))).mp h3
    have hint : 4 * (tokensOf (normalizeText c)).length ≤
        5 * fuzzyCount (normalizeText c) (normalizeText p.content) := by
      have : (4 * (tokensOf (normalizeText c)).length : ℚ) ≤
          (5 * fuzzyCount (normalizeText c) (normalizeText p.content) : ℚ) := by
        push_cast at hq ⊢
        linarith
      exact_mod_cast this
    simp [findGo, hpre, hlen0, h3, hint]
  · have hint : ¬(4 * (tokensOf (normalizeText c)).length ≤
        5 * fuzzyCount (normalizeText c) (normalizeText p.content)) := by
      intro hcontra
      apply h3
      rw [div_le_div_iff₀ (by norm_num)
        (by exact_mod_cast hlen : (0 : ℚ) < ((tokensOf (normalizeText c)).length : ℚ))]
      have : (4 * (tokensOf (normalizeText c)).length : ℚ) ≤
          (5 * fuzzyCount (normalizeText c) (normalizeText p.content) : ℚ) := by
        exact_mod_cast hcontra
      push_cast at this ⊢
      linarith
    simp [findGo, hpre, hlen0, h3, hint]

/-- C6, counterexample: the spec's own fuzzy scenario (ledger content
`"Big announcement about our new product launch today"`, metric snippet with
`" and beyond"` appended) has a token overlap of 100% ≥ 80%, yet the
Voyager-style variants return NO match for it: their only content test is an
exact `Map` lookup of the raw (case-sensitive, un-normalized) trimmed
50-character snippet, so the claim that every collection variant matches
iff the 80% token rule holds is false. -/
theorem c6_counterexample :
    4 * (tokensOf (normalizeText "Big announcement about our new product launch today")).length ≤
      5 * fuzzyCount (normalizeText "Big announcement about our new product launch today")
        (normalizeText "big announcement about our new product launch today and beyond") ∧
    voyagerMatchStats
        (buildPostStats [FeedItem.mk none (some (SocialCounts.mk (some 1) (some 0)))
          (some "big announcement about our new product launch today and beyond")])
        "" "Big announcement about our new product launch today" = none :=
  ⟨by decide, by decide⟩

/-- C6, witness: a pair that fails the exact-prefix test and has exactly
80% token overlap (4 of 5 tokens) is matched by the browser variant. -/
theorem c6_witness :
    findMatchingPost "alpha beta gamma delta epsilon"
        [ScrapedPost.mk none [] "alpha beta gamma delta zeta omega" 0 0 0] =
      some (ScrapedPost.mk none [] "alpha beta gamma delta zeta omega" 0 0 0) :=
  (c6_amended "alpha beta gamma delta epsilon"
    (ScrapedPost.mk none [] "alpha beta gamma delta zeta omega" 0 0 0)
    (by decide) (by decide)).mpr (by decide)

/-! # C8 : per-record failure isolation -/

/-- C8, counterexample: in the Voyager-style variants (whose record loop has
no per-record try/catch — the outer catch calls `process.exit(1)`), a
write-back failure on the FIRST pending record aborts the pass: the second
record is never attempted, contradicting the claim that a single failing
record never aborts the remainder of the batch in every collection
variant. -/
theorem c8_counterexample :
    voyLoopE [("1", VStats.mk 1 0 0), ("2", VStats.mk 1 0 0)] 0
        (fun i => i = 3) (fun _ => false)
        [PendRec.mk 3 "urn:li:share:1" "", PendRec.mk 4 "urn:li:share:2" ""] =
      ([3], [], [], true) ∧
    (4 : ℕ) ∉ (voyLoopE [("1", VStats.mk 1 0 0), ("2", VStats.mk 1 0 0)] 0
        (fun i => i = 3) (fun _ => false)
        [PendRec.mk 3 "urn:li:share:1" "", PendRec.mk 4 "urn:li:share:2" ""]).1 :=
  ⟨by decide, by decide⟩

/-- C8, amended: failure isolation holds in the `collect-stats.js` loop,
whose per-record try/catch makes every record attempted whatever the fetch,
write, and copy failures; the Voyager-style loops attempt every record only
when no write-back fails (a matcher miss or a winner-copy failure alone
never aborts them). -/
theorem c8_amended :
    (∀ (avg : ℚ) (fetchEng : ℕ → Option ℕ) (writeFail copyFail : ℕ → Bool)
       (recs : List ℕ),
       (xLoopE avg fetchEng writeFail copyFail recs).1 = recs) ∧
    (∀ (sm : List (String × VStats)) (avg : ℚ) (copyFail : ℕ → Bool)
       (recs : List PendRec),
       (voyLoopE sm avg (fun _ => false) copyFail recs).1 = recs.map PendRec.rowIndex ∧
       (voyLoopE sm avg (fun _ => false) copyFail recs).2.2.2 = false) := by
  constructor
  · intro avg fetchEng writeFail copyFail recs
    induction recs with
    | nil => rfl
    | cons i rest ih =>
      simp only [xLoopE]
      cases fetchEng i with
      | none => simpa using ih
      | some eng =>
        by_cases hw : writeFail i = true
        · simpa [hw] using ih
        · simp only [Bool.not_eq_true] at hw
          simpa [hw] using ih
  · intro sm avg copyFail recs
    induction recs with
    | nil => exact ⟨rfl, rfl⟩
    | cons p rest ih =>
      simp only [voyLoopE]
      cases voyagerMatchStats sm p.platformPostId p.content with
      | none => simp [ih.1, ih.2]
      | some st => simp [ih.1, ih.2]

/-! # C9 : winner-copy failure never rolls back the metrics write -/

/-- C9: in both loop embeddings (Voyager-style and `collect-stats.js`), the
set of attempted records, the metrics write-backs issued, and (for the
Voyager loop) the abort flag are all INDEPENDENT of which winner-copy
appends fail — the copy sits in its own try/catch, is logged, and the pass
continues with the next record, leaving the already-issued metrics write
untouched. -/
theorem c9_copy_failure_isolated :
    (∀ (sm : List (String × VStats)) (avg : ℚ) (writeFail cf1 cf2 : ℕ → Bool)
       (recs : List PendRec),
       (voyLoopE sm avg writeFail cf1 recs).1 = (voyLoopE sm avg writeFail cf2 recs).1 ∧
       (voyLoopE sm avg writeFail cf1 recs).2.1 = (voyLoopE sm avg writeFail cf2 recs).2.1 ∧
       (voyLoopE sm avg writeFail cf1 recs).2.2.2 =
         (voyLoopE sm avg writeFail cf2 recs).2.2.2) ∧
    (∀ (avg : ℚ) (fetchEng : ℕ → Option ℕ) (writeFail cf1 cf2 : ℕ → Bool)
       (recs : List ℕ),
       (xLoopE avg fetchEng writeFail cf1 recs).1 = (xLoopE avg fetchEng writeFail cf2 recs).1 ∧
       (xLoopE avg fetchEng writeFail cf1 recs).2.1 =
         (xLoopE avg fetchEng writeFail cf2 recs).2.1) := by
  constructor
  · intro sm avg writeFail cf1 cf2 recs
    induction recs with
    | nil => exact ⟨rfl, rfl, rfl⟩
    | cons p rest ih =>
      simp only [voyLoopE]
      cases voyagerMatchStats sm p.platformPostId p.content with
      | none => simp [ih.1, ih.2.1, ih.2.2]
      | some st =>
        by_cases hw : writeFail p.rowIndex = true
        · simp [hw]
        · simp only [Bool.not_eq_true] at hw
          simp [hw, ih.1, ih.2.1, ih.2.2]
  · intro avg fetchEng writeFail cf1 cf2 recs
    induction recs with
    | nil => exact ⟨rfl, rfl⟩
    | cons i rest ih =>
      simp only [xLoopE]
      cases fetchEng i with
      | none => simp [ih.1, ih.2]
      | some eng =>
        by_cases hw : writeFail i = true
        · simp [hw, ih.1, ih.2]
        · simp only [Bool.not_eq_true] at hw
          simp [hw, ih.1, ih.2]

theorem specDigitChar_spec (d : ℕ) (h : d < 10) :
    (specDigitChar d).isDigit = true ∧ (specDigitChar d).toNat - 48 = d ∧
    digDotP (specDigitChar d) = true := by
  interval_cases d <;> exact ⟨rfl, rfl, rfl⟩

theorem foldl_digits (ds : List ℕ) : ∀ (a : ℕ), (∀ d ∈ ds, d < 10) →
    (ds.map specDigitChar).foldl (fun acc c => 10 * acc + (c.toNat - 48)) a =
      ds.foldl (fun acc d => 10 * acc + d) a := by
  induction ds with
  | nil => intro a _; rfl
  | cons d t ih =>
    intro a h
    have hd := (specDigitChar_spec d (h d (by simp))).2.1
    simp only [List.map_cons, List.foldl_cons, hd]
    exact ih _ (fun x hx => h x (by simp [hx]))

theorem parseFloatRun_digits (L : List Char) (hdig : ∀ c ∈ L, c.isDigit = true) :
    L ≠ [] → parseFloatRun L = some (digitsVal L) := by
  cases L with
  | nil => intro h; exact absurd rfl h
  | cons a t =>
    intro _
    have ht := List.takeWhile_eq_self_iff.mpr hdig
    have hd := List.dropWhile_eq_nil_iff.mpr hdig
    simp only [parseFloatRun, ht, hd]
    rfl

theorem parseMetric_general (s : String) (ds : List ℕ) (suf : String) (mult : ℕ)
    (hs : s ≠ "") (hds : ∀ d ∈ ds, d < 10) (hne : ds ≠ [])
    (hsuf : (suf = "" ∧ mult = 1) ∨ (suf = "k" ∧ mult = 1000) ∨ (suf = "m" ∧ mult = 1000000))
    (hclean : cleanChars s = ds.map specDigitChar ++ suf.data) :
    parseMetricNumber (some s) = some ((decVal ds * mult : ℕ) : ℤ) := by
  have hdig : ∀ c ∈ ds.map specDigitChar, c.isDigit = true := by
    intro c hc
    obtain ⟨d, hd, rfl⟩ := List.mem_map.mp hc
    exact (specDigitChar_spec d (hds d hd)).1
  have hdd : ∀ c ∈ ds.map specDigitChar, digDotP c = true := by
    intro c hc
    obtain ⟨d, hd, rfl⟩ := List.mem_map.mp hc
    exact (specDigitChar_spec d (hds d hd)).2.2
  obtain ⟨d0, ds', rfl⟩ : ∃ d0 ds', ds = d0 :: ds' := by
    cases ds with
    | nil => exact absurd rfl hne
    | cons a t => exact ⟨a, t, rfl⟩
  have hhead : digDotP (specDigitChar d0) = true := hdd _ (by simp)
  have htail : List.takeWhile digDotP suf.data = [] := by
    rcases hsuf with ⟨rfl, _⟩ | ⟨rfl, _⟩ | ⟨rfl, _⟩ <;> rfl
  simp only [parseMetricNumber]
  rw [if_neg hs, hclean]
  have h1 : ((d0 :: ds').map specDigitChar ++ suf.data).dropWhile (fun c => ¬ digDotP c) =
      (d0 :: ds').map specDigitChar ++ suf.data := by
    rw [List.map_cons, List.cons_append, List.dropWhile_cons]
    simp [hhead]
  rw [h1]
  have htakeAll : List.takeWhile digDotP ((d0 :: ds').map specDigitChar) =
      (d0 :: ds').map specDigitChar := List.takeWhile_eq_self_iff.mpr hdd
  have h2 : List.takeWhile digDotP ((d0 :: ds').map specDigitChar ++ suf.data) =
      (d0 :: ds').map specDigitChar := by
    rw [List.takeWhile_append, if_pos (by rw [htakeAll]), htail, List.append_nil]
  rw [h2]
  rw [if_neg (by simp)]
  rw [parseFloatRun_digits _ hdig (by simp)]
  have hdrop : ((d0 :: ds').map specDigitChar ++ suf.data).drop
      ((d0 :: ds').map specDigitChar).length = suf.data := List.drop_left _ _
  rw [hdrop]
  have hdv : digitsVal ((d0 :: ds').map specDigitChar) = decVal (d0 :: ds') :=
    foldl_digits (d0 :: ds') 0 hds
  rw [hdv]
  rcases hsuf with ⟨rfl, rfl⟩ | ⟨rfl, rfl⟩ | ⟨rfl, rfl⟩
  · show some (jsRound (((decVal (d0 :: ds') : ℕ) : ℚ) * 1)) =
      some (((decVal (d0 :: ds') * 1 : ℕ) : ℤ))
    rw [mul_one, jsRound_natCast]
    norm_num
  · show some (jsRound (((decVal (d0 :: ds') : ℕ) : ℚ) * 1000)) =
      some (((decVal (d0 :: ds') * 1000 : ℕ) : ℤ))
    have hcast : ((decVal (d0 :: ds') : ℕ) : ℚ) * 1000 =
        ((decVal (d0 :: ds') * 1000 : ℕ) : ℚ) := by push_cast; ring
    rw [hcast, jsRound_natCast]
  · show some (jsRound (((decVal (d0 :: ds') : ℕ) : ℚ) * 1000000)) =
      some (((decVal (d0 :: ds') * 1000000 : ℕ) : ℤ))
    have hcast : ((decVal (d0 :: ds') : ℕ) : ℚ) * 1000000 =
        ((decVal (d0 :: ds') * 1000000 : ℕ) : ℚ) := by push_cast; ring
    rw [hcast, jsRound_natCast]

/-- C3, counterexample: the input `"."` is unparseable — it denotes no
number — so the claim requires result `0`; but the regex `([\d.]+)` accepts
the bare dot, `parseFloat(".")` is `NaN`, and `Math.round(NaN)` is `NaN`,
so `parseMetricNumber` returns `NaN` (modelled `none`), not `0`. -/
theorem c3_counterexample : parseMetricNumber (some ".") ≠ some 0 := by
  have h : parseMetricNumber (some ".") = none := rfl
  rw [h]
  exact fun hc => Option.noConfusion hc

/-- C3, amended: absent and empty inputs give 0; the spec's example inputs
give their stated values; an input whose cleaned form contains no digit or
dot gives 0; and every input whose comma/whitespace-stripped, lower-cased
form is a non-empty digit string followed by an optional `k`/`m` suffix
gives its decimal value times the magnitude — but an input whose first
digit-or-dot run parses as `NaN` (e.g. `"."`) propagates `NaN` instead of
degrading to 0. -/
theorem c3_normalizer_amended :
    parseMetricNumber none = some 0 ∧
    parseMetricNumber (some "") = some 0 ∧
    parseMetricNumber (some "1,234") = some 1234 ∧
    parseMetricNumber (some "1.2K") = some 1200 ∧
    parseMetricNumber (some "3M") = some 3000000 ∧
    parseMetricNumber (some ".") = none ∧
    (∀ (s : String), s ≠ "" → (∀ c ∈ cleanChars s, ¬ digDotP c = true) →
      parseMetricNumber (some s) = some 0) ∧
    (∀ (s : String) (ds : List ℕ) (suf : String) (mult : ℕ),
      s ≠ "" → (∀ d ∈ ds, d < 10) → ds ≠ [] →
      ((suf = "" ∧ mult = 1) ∨ (suf = "k" ∧ mult = 1000) ∨ (suf = "m" ∧ mult = 1000000)) →
      cleanChars s = ds.map specDigitChar ++ suf.data →
      parseMetricNumber (some s) = some ((decVal ds * mult : ℕ) : ℤ)) := by
  refine ⟨rfl, rfl, ?_, ?_, ?_, rfl, ?_, parseMetric_general⟩
  · exact parseMetric_general "1,234" [1, 2, 3, 4] "" 1 (by decide) (by decide) (by decide)
      (Or.inl ⟨rfl, rfl⟩) (by decide)
  · have h : parseMetricNumber (some "1.2K") =
        some (jsRound ((((1 : ℕ) : ℚ) + ((2 : ℕ) : ℚ) / 10 ^ 1) * 1000)) := rfl
    have h2 : jsRound ((((1 : ℕ) : ℚ) + ((2 : ℕ) : ℚ) / 10 ^ 1) * 1000) = 1200 := by
      rw [jsRound, Int.floor_eq_iff]
      constructor <;> push_cast <;> norm_num
    rw [h, h2]
  · exact parseMetric_general "3M" [3] "m" 1000000 (by decide) (by decide) (by decide)
      (Or.inr (Or.inr ⟨rfl, rfl⟩)) (by decide)
  · intro s hs hnd
    simp only [parseMetricNumber]
    rw [if_neg hs]
    have h1 : (cleanChars s).dropWhile (fun c => ¬ digDotP c) = [] := by
      rw [List.dropWhile_eq_nil_iff]
      intro x hx
      simp [hnd x hx]
    rw [h1]
    rfl

/-- C3, witness: the digit-free clause at `"n/a"` and the general clause at
`"4,2 k"` (comma and whitespace stripped, case-folded suffix). -/
theorem c3_normalizer_witness :
    parseMetricNumber (some "n/a") = some 0 ∧
    parseMetricNumber (some "4,2 k") = some 42000 :=
  ⟨c3_normalizer_amended.2.2.2.2.2.2.1 "n/a" (by decide) (by decide),
   c3_normalizer_amended.2.2.2.2.2.2.2 "4,2 k" [4, 2] "k" 1000 (by decide) (by decide)
     (by decide) (Or.inr (Or.inl ⟨rfl, rfl⟩)) (by decide)⟩

theorem jsMapGet_append (a b : List (String × VStats)) (k : String) :
    jsMapGet (a ++ b) k = (jsMapGet b k).or (jsMapGet a k) := by
  unfold jsMapGet
  rw [List.reverse_append, List.find?_append]
  cases List.find? (fun p => p.1 = k) b.reverse <;> simp [Option.or]

theorem jsMapGet_const (st : VStats) :
    ∀ (ps : List (String × VStats)), (∀ p ∈ ps, p.2 = st) → ∀ (k : String),
      jsMapGet ps k = if k ∈ ps.map Prod.fst then some st else none := by
  intro ps
  induction ps with
  | nil => intro _ k; rfl
  | cons q rest ih =>
    intro hall k
    have hq : q.2 = st := hall q (List.mem_cons_self q rest)
    have hrest := ih (fun p hp => hall p (List.mem_cons_of_mem q hp)) k
    unfold jsMapGet at hrest ⊢
    rw [List.reverse_cons, List.find?_append]
    cases hf : List.find? (fun p => p.1 = k) rest.reverse with
    | some v =>
      rw [hf] at hrest
      simp only [Option.map_some'] at hrest
      have hkin : k ∈ rest.map Prod.fst ∧ v.2 = st := by
        by_cases hin : k ∈ rest.map Prod.fst
        · rw [if_pos hin] at hrest
          exact ⟨hin, Option.some.inj hrest⟩
        · rw [if_neg hin] at hrest
          exact absurd hrest (by simp)
      rw [if_pos (by simp [hkin.1])]
      simp [Option.or, hkin.2]
    | none =>
      rw [hf] at hrest
      simp only [Option.map_none'] at hrest
      have hnin : k ∉ rest.map Prod.fst := by
        by_cases hin : k ∈ rest.map Prod.fst
        · rw [if_pos hin] at hrest
          exact absurd hrest.symm (by simp)
        · exact hin
      by_cases hqk : q.1 = k
      · rw [if_pos (by simp [hqk.symm])]
        simp [List.find?, hqk, Option.or, hq]
      · have hkq : ¬k = q.1 := fun h => hqk h.symm
        rw [if_neg (by simp [hnin, hkq])]
        simp [List.find?, hqk, Option.or]

theorem itemPairs_snd (it : FeedItem) (d : SocialCounts) (h : it.socialDetail = some d) :
    ∀ p ∈ itemPairs it, p.2 = statsOf d := by
  intro p hp
  rcases it with ⟨urn, sd, comm⟩
  obtain rfl : sd = some d := h
  cases urn <;> cases comm <;> simp [itemPairs] at hp <;> rcases hp with rfl | rfl | rfl <;> rfl

theorem itemPairs_social (it : FeedItem) (k : String)
    (h : k ∈ (itemPairs it).map Prod.fst) : ∃ d, it.socialDetail = some d := by
  rcases it with ⟨urn, sd, comm⟩
  cases sd with
  | none => simp [itemPairs] at h
  | some d => exact ⟨d, rfl⟩

/-- C10: in the Voyager-style variants the fetched feed is indexed in one
map keyed by full URN, numeric URN suffix, and trimmed 50-character content
snippet; lookups return the stats of the LAST feed item that registered the
key, so when two items collide on a key the later item's stats win. -/
theorem c10_last_writer_wins (items : List FeedItem) (k : String) :
    jsMapGet (buildPostStats items) k =
      (items.reverse.find? (fun it => decide (k ∈ (itemPairs it).map Prod.fst))).bind
        (fun it => it.socialDetail.map statsOf) := by
  induction items with
  | nil => rfl
  | cons it rest ih =>
    have hbuild : buildPostStats (it :: rest) = itemPairs it ++ buildPostStats rest := by
      simp [buildPostStats]
    rw [hbuild, jsMapGet_append, List.reverse_cons, List.find?_append, ih]
    cases hf : List.find? (fun it' => decide (k ∈ (itemPairs it').map Prod.fst)) rest.reverse with
    | some it' =>
      have hp := List.find?_some hf
      simp only [decide_eq_true_eq] at hp
      obtain ⟨d, hd⟩ := itemPairs_social it' k hp
      simp [hd, Option.or]
    | none =>
      by_cases hkin : k ∈ (itemPairs it).map Prod.fst
      · obtain ⟨d, hd⟩ := itemPairs_social it k hkin
        have hconst := jsMapGet_const (statsOf d) (itemPairs it) (itemPairs_snd it d hd) k
        rw [hconst, if_pos hkin]
        simp [List.find?, hkin, hd, Option.or]
      · have hconst : jsMapGet (itemPairs it) k = none := by
          rcases hsd : it.socialDetail with _ | d
          · rcases it with ⟨u, sd, c⟩
            obtain rfl : sd = none := hsd
            simp [itemPairs, jsMapGet]
          · rw [jsMapGet_const (statsOf d) _ (itemPairs_snd it d hsd) k, if_neg hkin]
        rw [hconst]
        simp [List.find?, hkin, Option.or]

theorem toDigitsCore_length (b : ℕ) :
    ∀ (f n : ℕ) (ds : List Char), ds.length ≤ (Nat.toDigitsCore b f n ds).length := by
  intro f
  induction f with
  | zero => intro n ds; simp [Nat.toDigitsCore]
  | succ f ih =>
    intro n ds
    simp only [Nat.toDigitsCore]
    by_cases h : n / b = 0
    · simp [h]
    · calc ds.length ≤ (((n % b).digitChar) :: ds).length := by simp
        _ ≤ _ := by simpa [h] using ih (n / b) (((n % b).digitChar) :: ds)

theorem toDigitsCore_length_succ (b f n : ℕ) (ds : List Char) (hf : 0 < f) :
    ds.length + 1 ≤ (Nat.toDigitsCore b f n ds).length := by
  cases f with
  | zero => omega
  | succ f =>
    simp only [Nat.toDigitsCore]
    by_cases h : n / b = 0
    · simp [h]
    · have h2 := toDigitsCore_length b f (n / b) (((n % b).digitChar) :: ds)
      simp only [List.length_cons] at h2
      simpa [h] using h2

/-- The decimal text of a number written to a sheet cell is never the empty
string — in particular impressions written as `0` read back as `"0"`. -/
theorem natRepr_ne_empty (n : ℕ) : Nat.repr n ≠ "" := by
  intro h
  have hlen := toDigitsCore_length_succ 10 (n + 1) n [] (by omega)
  have hdata : Nat.toDigitsCore 10 (n + 1) n [] = [] := by
    have := congrArg String.data h
    simpa [Nat.repr, Nat.toDigits, List.asString] using this
  rw [hdata] at hlen
  simp at hlen

theorem writeStatsRow_fields (r : LRow) (st : VStats) (avg : ℚ) :
    (writeStatsRow r st avg).content = r.content ∧
    (writeStatsRow r st avg).postedAt = r.postedAt ∧
    (writeStatsRow r st avg).platformPostId = r.platformPostId ∧
    (writeStatsRow r st avg).impressions = Nat.repr st.impressions :=
  ⟨rfl, rfl, rfl, rfl⟩

theorem Pres_refl (rows : List LRow) : Pres rows rows := by
  refine ⟨rfl, fun j r r' h1 h2 => ?_⟩
  rw [h1] at h2
  obtain rfl := Option.some.inj h2
  exact ⟨rfl, rfl, rfl, Or.inl rfl⟩

theorem passStep_none_of_matchNone (sm : List (String × VStats)) (avg : ℚ)
    (rs : List LRow) (w : List ℕ) (pr : ℕ × String) (r : LRow)
    (hget : rs[pr.1 - 2]? = some r)
    (hm : voyagerMatchStats sm pr.2 r.content = none) :
    passStep sm avg (rs, w) pr = (rs, w) := by
  simp [passStep, hget, hm]

theorem passStep_of_matchSome (sm : List (String × VStats)) (avg : ℚ)
    (rs : List LRow) (w : List ℕ) (pr : ℕ × String) (r : LRow) (st : VStats)
    (hget : rs[pr.1 - 2]? = some r)
    (hm : voyagerMatchStats sm pr.2 r.content = some st) :
    passStep sm avg (rs, w) pr =
      (listModify (fun r0 => writeStatsRow r0 st avg) (pr.1 - 2) rs, w ++ [pr.1]) := by
  simp [passStep, hget, hm]

theorem Pres_passStep (rows : List LRow) (sm : List (String × VStats)) (avg : ℚ)
    (rs : List LRow) (w : List ℕ) (pr : ℕ × String)
    (h : Pres rows rs) : Pres rows (passStep sm avg (rs, w) pr).1 := by
  cases hget : rs[pr.1 - 2]? with
  | none =>
    cases hm : voyagerMatchStats sm pr.2 "" with
    | none => simpa [passStep, hget, hm] using h
    | some st =>
      have hoob : listModify (fun r0 => writeStatsRow r0 st avg) (pr.1 - 2) rs = rs := by
        apply List.ext_getElem?
        intro n
        rw [listModify_getElem?]
        by_cases hn : n = pr.1 - 2
        · subst hn; rw [hget]; simp
        · simp [hn]
      simpa [passStep, hget, hm, hoob] using h
  | some r =>
    cases hm : voyagerMatchStats sm pr.2 r.content with
    | none => simpa [passStep, hget, hm] using h
    | some st =>
      rw [passStep_of_matchSome sm avg rs w pr r st hget hm]
      obtain ⟨hlen, hfields⟩ := h
      refine ⟨by rw [listModify_length]; exact hlen, ?_⟩
      intro j r0 r1 hr0 hr1
      rw [listModify_getElem?] at hr1
      by_cases hj : j = pr.1 - 2
      · rw [if_pos hj, hj, hget] at hr1
        simp only [Option.map_some'] at hr1
        obtain rfl := Option.some.inj hr1.symm
        obtain ⟨hc, hp, hpi, _⟩ := hfields j r0 r hr0 (by rw [hj]; exact hget)
        refine ⟨by rw [(writeStatsRow_fields r st avg).1, hc],
          by rw [(writeStatsRow_fields r st avg).2.1, hp],
          by rw [(writeStatsRow_fields r st avg).2.2.1, hpi], Or.inr ?_⟩
        rw [(writeStatsRow_fields r st avg).2.2.2]
        exact natRepr_ne_empty _
      · rw [if_neg hj] at hr1
        exact hfields j r0 r1 hr0 hr1

theorem fold_Pres (rows : List LRow) (sm : List (String × VStats)) (avg : ℚ) :
    ∀ (l : List (ℕ × String)) (rs : List LRow) (w : List ℕ), Pres rows rs →
      Pres rows ((l.foldl (passStep sm avg) (rs, w)).1) := by
  intro l
  induction l with
  | nil => intro rs w h; exact h
  | cons pr rest ih =>
    intro rs w h
    rw [List.foldl_cons]
    rcases hstep : passStep sm avg (rs, w) pr with ⟨rs1, w1⟩
    apply ih rs1 w1
    have h1 := Pres_passStep rows sm avg rs w pr h
    rwa [hstep] at h1

theorem passStep_imp_stable (sm : List (String × VStats)) (avg : ℚ)
    (rs : List LRow) (w : List ℕ) (pr : ℕ × String) (m : ℕ) (r0 : LRow)
    (hm0 : rs[m]? = some r0) (hne : r0.impressions ≠ "") :
    ∃ r1, ((passStep sm avg (rs, w) pr).1)[m]? = some r1 ∧ r1.impressions ≠ "" := by
  cases hget : rs[pr.1 - 2]? with
  | none =>
    cases hmm : voyagerMatchStats sm pr.2 "" with
    | none => exact ⟨r0, by simp [passStep, hget, hmm, hm0], hne⟩
    | some st =>
      have hmne : m ≠ pr.1 - 2 := fun h => by rw [h, hget] at hm0; cases hm0
      exact ⟨r0, by simp [passStep, hget, hmm, listModify_getElem?, hmne, hm0], hne⟩
  | some r =>
    cases hmm : voyagerMatchStats sm pr.2 r.content with
    | none => exact ⟨r0, by simp [passStep, hget, hmm, hm0], hne⟩
    | some st =>
      by_cases hj : m = pr.1 - 2
      · refine ⟨writeStatsRow r st avg, ?_, ?_⟩
        · rw [passStep_of_matchSome sm avg rs w pr r st hget hmm]
          show (listModify (fun r0 => writeStatsRow r0 st avg) (pr.1 - 2) rs)[m]? = _
          rw [listModify_getElem?, if_pos hj, hj, hget]
          rfl
        · rw [(writeStatsRow_fields r st avg).2.2.2]
          exact natRepr_ne_empty _
      · refine ⟨r0, ?_, hne⟩
        rw [passStep_of_matchSome sm avg rs w pr r st hget hmm]
        show (listModify (fun r0 => writeStatsRow r0 st avg) (pr.1 - 2) rs)[m]? = _
        rw [listModify_getElem?, if_neg hj]
        exact hm0

theorem fold_imp_stable (sm : List (String × VStats)) (avg : ℚ) :
    ∀ (l : List (ℕ × String)) (rs : List LRow) (w : List ℕ) (m : ℕ) (r0 : LRow),
      rs[m]? = some r0 → r0.impressions ≠ "" →
      ∃ r1, ((l.foldl (passStep sm avg) (rs, w)).1)[m]? = some r1 ∧ r1.impressions ≠ "" := by
  intro l
  induction l with
  | nil => intro rs w m r0 hm0 hne; exact ⟨r0, hm0, hne⟩
  | cons pr rest ih =>
    intro rs w m r0 hm0 hne
    rw [List.foldl_cons]
    rcases hstep : passStep sm avg (rs, w) pr with ⟨rs1, w1⟩
    obtain ⟨r1, hr1, hr1ne⟩ := passStep_imp_stable sm avg rs w pr m r0 hm0 hne
    rw [hstep] at hr1
    exact ih rs1 w1 m r1 hr1 hr1ne

theorem fold_written_or_none (rows : List LRow) (sm : List (String × VStats)) (avg : ℚ) :
    ∀ (l : List (ℕ × String)) (rs : List LRow) (w : List ℕ) (i : ℕ) (pid : String) (r : LRow),
      Pres rows rs → (i, pid) ∈ l → rows[i - 2]? = some r →
      voyagerMatchStats sm pid r.content = none ∨
      ∃ r1, ((l.foldl (passStep sm avg) (rs, w)).1)[i - 2]? = some r1 ∧
        r1.impressions ≠ "" := by
  intro l
  induction l with
  | nil => intro rs w i pid r _ hmem; simp at hmem
  | cons pr rest ih =>
    intro rs w i pid r hpres hmem hrow
    have hlen := hpres.1
    have hlt : i - 2 < rs.length := by
      obtain ⟨h1, _⟩ := List.getElem?_eq_some_iff.mp hrow
      omega
    obtain ⟨r', hget⟩ : ∃ r', rs[i - 2]? = some r' := ⟨_, List.getElem?_eq_getElem hlt⟩
    obtain ⟨hc, _, _, _⟩ := hpres.2 (i - 2) r r' hrow hget
    rcases List.mem_cons.mp hmem with heq | hmem'
    · obtain rfl := heq.symm
      cases hmm : voyagerMatchStats sm pid r'.content with
      | none => left; rw [← hc]; exact hmm
      | some st =>
        right
        rw [List.foldl_cons,
          passStep_of_matchSome sm avg rs w (i, pid) r' st hget hmm]
        apply fold_imp_stable sm avg rest _ _ (i - 2) (writeStatsRow r' st avg)
        · rw [listModify_getElem?, if_pos rfl, hget]
          rfl
        · rw [(writeStatsRow_fields r' st avg).2.2.2]
          exact natRepr_ne_empty _
    · rw [List.foldl_cons]
      rcases hstep : passStep sm avg (rs, w) pr with ⟨rs1, w1⟩
      have hpres1 : Pres rows rs1 := by
        have h1 := Pres_passStep rows sm avg rs w pr hpres
        rwa [hstep] at h1
      exact ih rs1 w1 i pid r hpres1 hmem' hrow

theorem fold_id_of_no_match (sm : List (String × VStats)) (avg : ℚ) :
    ∀ (l : List (ℕ × String)) (rs : List LRow) (w : List ℕ),
      (∀ pr ∈ l, voyagerMatchStats sm pr.2
        (match rs[pr.1 - 2]? with | some r => r.content | none => "") = none) →
      l.foldl (passStep sm avg) (rs, w) = (rs, w) := by
  intro l
  induction l with
  | nil => intro rs w _; rfl
  | cons pr rest ih =>
    intro rs w h
    have h0 := h pr (by simp)
    have hstep : passStep sm avg (rs, w) pr = (rs, w) := by
      cases hget : rs[pr.1 - 2]? with
      | none =>
        rw [hget] at h0
        have h0' : voyagerMatchStats sm pr.2 "" = none := h0
        simp [passStep, hget, h0']
      | some r =>
        rw [hget] at h0
        exact passStep_none_of_matchNone sm avg rs w pr r hget h0
    rw [List.foldl_cons, hstep]
    exact ih rs w (fun pr' hpr' => h pr' (by simp [hpr']))

/-- C7: running the Voyager reconciliation pass twice in succession over the
same ledger with the same feed statistics and clock (and any baseline\naverage for the second run) produces ZERO
write-backs on the second run: every record written in the first run ends
with a non-empty Impressions cell (`Nat.repr` of the stats, `"0"` included)
and is filtered out, and every record the first run left alone still fails
to match, so nothing is written. -/
theorem c7_idempotent (now : ℤ) (dateOf : String → ℤ) (sm : List (String × VStats))
    (avg avg2 : ℚ) (rows : List LRow) :
    (voyagerPass now dateOf sm avg2 (voyagerPass now dateOf sm avg rows).1).2 = [] := by
  have hpres : Pres rows (voyagerPass now dateOf sm avg rows).1 := by
    unfold voyagerPass
    exact fold_Pres rows sm avg _ rows [] (Pres_refl rows)
  set rows2 := (voyagerPass now dateOf sm avg rows).1 with hrows2
  have hcond : ∀ pr ∈ getPostsNeedingStats now dateOf rows2,
      voyagerMatchStats sm pr.2
        (match rows2[pr.1 - 2]? with | some r => r.content | none => "") = none := by
    rintro ⟨i, pid⟩ hpr
    show voyagerMatchStats sm pid
      (match rows2[i - 2]? with | some r => r.content | none => "") = none
    obtain ⟨j, r', hj, hget', hpid, helig⟩ :=
      (mem_needsAux now dateOf rows2 0 i pid).mp hpr
    have hj2 : i - 2 = j := by omega
    have helig2 := helig
    simp only [eligB, Bool.and_eq_true, decide_eq_true_eq] at helig2
    obtain ⟨⟨hpa, himp⟩, hhrs⟩ := helig2
    have hlt : j < rows.length := by
      obtain ⟨h1, _⟩ := List.getElem?_eq_some_iff.mp hget'
      have := hpres.1
      omega
    obtain ⟨r, hrow⟩ : ∃ r, rows[j]? = some r := ⟨_, List.getElem?_eq_getElem hlt⟩
    obtain ⟨hc, hpa2, hpi2, hor⟩ := hpres.2 j r r' hrow hget'
    have hrr : r' = r := by
      rcases hor with h | h
      · exact h
      · exact absurd himp h
    have hmem1 : (i, pid) ∈ getPostsNeedingStats now dateOf rows := by
      apply (mem_needsAux now dateOf rows 0 i pid).mpr
      refine ⟨j, r, by omega, hrow, by rw [hpid, hrr], ?_⟩
      rw [← hrr]
      exact helig
    have hdicho := fold_written_or_none rows sm avg
      (getPostsNeedingStats now dateOf rows) rows [] i pid r (Pres_refl rows) hmem1
      (by rw [hj2]; exact hrow)
    rcases hdicho with hnone | ⟨r1, hr1, hr1ne⟩
    · rw [hj2, hget']
      show voyagerMatchStats sm pid r'.content = none
      rw [hc]
      exact hnone
    · exfalso
      have hsame : rows2[i - 2]? = some r1 := by
        rw [hrows2]
        unfold voyagerPass
        exact hr1
      rw [hj2, hget'] at hsame
      obtain rfl := Option.some.inj hsame
      exact hr1ne himp
  show (voyagerPass now dateOf sm avg2 rows2).2 = []
  unfold voyagerPass
  rw [fold_id_of_no_match sm avg2 (getPostsNeedingStats now dateOf rows2) rows2 [] hcond]
